/-
Verification of the password analyzer (src/password_analyzer.py).

Shallow embedding conventions:
  * Python strings are `List Char`; Python `int` is `ℤ` (or `ℕ` where the
    source value is provably a length/count); Python `float` is modelled as
    the real numbers `ℝ` (exact arithmetic; `math.log2` is `Real.logb 2`,
    `round(x, 1)` is `round1` below, whose tie-breaking is round-half-up,
    matching the spec's allowance of round-half-away-from-zero for the
    non-negative values that occur here).
  * Functions that can raise return `Except PAError _`.
  * The process-wide generator `random` is modelled by an explicit stream of
    natural numbers (`Rand`) threaded through every randomized operation, so
    that theorems quantify over all possible sequences of random draws.
-/
import Mathlib

namespace PasswordAnalyzer

/-! ## Models of Python's Unicode-aware character predicates

The source calls `str.isdigit`, `str.islower`, `str.isupper`, `str.isalnum`
and `str.upper`, which follow the Unicode character database.  We model them
faithfully on the character ranges this development touches: ASCII,
Arabic-Indic digits, the Cyrillic block, and CJK ideographs.  Characters
outside these ranges are treated as classified into none of the classes. -/

/-- Model of Python `str.isdigit` on one character: ASCII digits and
Arabic-Indic digits (U+0660..U+0669). -/
def pyIsDigit (c : Char) : Bool :=
  (0x30 ≤ c.toNat && c.toNat ≤ 0x39) || (0x660 ≤ c.toNat && c.toNat ≤ 0x669)

/-- Model of Python `str.islower` on one character: ASCII `a`..`z` and
Cyrillic `а`..`я` (U+0430..U+044F) plus `ё` (U+0451). -/
def pyIsLower (c : Char) : Bool :=
  (0x61 ≤ c.toNat && c.toNat ≤ 0x7a) || (0x430 ≤ c.toNat && c.toNat ≤ 0x44f)
    || c.toNat == 0x451

/-- Model of Python `str.isupper` on one character: ASCII `A`..`Z` and
Cyrillic `А`..`Я` (U+0410..U+042F) plus `Ё` (U+0401). -/
def pyIsUpper (c : Char) : Bool :=
  (0x41 ≤ c.toNat && c.toNat ≤ 0x5a) || (0x410 ≤ c.toNat && c.toNat ≤ 0x42f)
    || c.toNat == 0x401

/-- Model of Python `str.isalpha` on one character: the cased letters above
plus CJK ideographs (U+4E00..U+9FFF), which are letters with no case. -/
def pyIsAlpha (c : Char) : Bool :=
  pyIsLower c || pyIsUpper c || (0x4e00 ≤ c.toNat && c.toNat ≤ 0x9fff)

/-- Model of Python `str.isalnum` on one character (alphabetic or digit on
the modelled ranges). -/
def pyIsAlnum (c : Char) : Bool :=
  pyIsAlpha c || pyIsDigit c

/-- Model of Python `str.upper` on one character: ASCII and Cyrillic
lowercase letters map to their uppercase forms, everything else is kept. -/
def pyToUpper (c : Char) : Char :=
  if 0x61 ≤ c.toNat && c.toNat ≤ 0x7a then Char.ofNat (c.toNat - 0x20)
  else if 0x430 ≤ c.toNat && c.toNat ≤ 0x44f then Char.ofNat (c.toNat - 0x20)
  else if c.toNat == 0x451 then Char.ofNat 0x401
  else c

/-! ## Errors -/

/-- Error kinds raised by the source (`ValueError` on empty input, and the
defensive `ValueError` for negative entropy, which the spec calls
`InvalidState`). -/
inductive PAError where
  | invalidInput : PAError
  | invalidState : PAError
deriving DecidableEq, Repr

/-! ## Character classifier (`check_password_characters`, lines 22-46) -/

/-- Result of `check_password_characters`: the source returns the 4-tuple
`(has_digits, has_lower, has_upper, has_special)`, modelled as a structure
with the fields in source order. -/
structure CharFlags where
  has_digits : Bool
  has_lower : Bool
  has_upper : Bool
  has_special : Bool
deriving DecidableEq, Repr

/-- Embedding of `check_password_characters`: one pass over the characters;
per character the `if/elif` chain sets at most one flag with precedence
digit, then lower, then upper, then (not alphanumeric) special. -/
def check_password_characters (password : List Char) : CharFlags :=
  password.foldl
    (fun f c =>
      if pyIsDigit c then { f with has_digits := true }
      else if pyIsLower c then { f with has_lower := true }
      else if pyIsUpper c then { f with has_upper := true }
      else if !(pyIsAlnum c) then { f with has_special := true }
      else f)
    ⟨false, false, false, false⟩

/-! ## Complexity scorer (lines 49-145) -/

/-- Embedding of `compute_alphabet_size`: sums the fixed contributions
10/26/26/32 over the flags set true, in source order. -/
def compute_alphabet_size (char_flags : CharFlags) : ℕ :=
  [(char_flags.has_digits, 10), (char_flags.has_lower, 26),
      (char_flags.has_upper, 26), (char_flags.has_special, 32)].foldl
    (fun size fv => if fv.1 then size + fv.2 else size) 0

/-- Embedding of `compute_entropy_bits`: zero on non-positive length or
alphabet, otherwise `log2(alphabet_size ** password_length)` (the source
computes the exact integer power and takes `math.log2`). -/
noncomputable def compute_entropy_bits (password_length alphabet_size : ℤ) : ℝ :=
  if password_length ≤ 0 ∨ alphabet_size ≤ 0 then 0
  else
    let total_combinations : ℤ := alphabet_size ^ password_length.toNat
    if total_combinations ≤ 0 then 0
    else Real.logb 2 (total_combinations : ℝ)

/-- Model of Python `round(x, 1)`: round to one decimal place.  Ties round
half-up (all rounded values in this development are non-negative, so this is
round-half-away-from-zero, one of the two policies the spec allows). -/
noncomputable def round1 (x : ℝ) : ℝ :=
  (round (10 * x) : ℤ) / 10

/-- Embedding of `map_entropy_to_score` (lines 93-109): raises on negative
entropy, returns 0 for entropy 0, else `round(min(entropy/10, 10), 1)`. -/
noncomputable def map_entropy_to_score (entropy_value : ℝ) : Except PAError ℝ :=
  if entropy_value < 0 then .error .invalidState
  else if entropy_value ≤ 0 then .ok 0
  else .ok (round1 (min (entropy_value / 10) 10))

/-- Result dictionary of `analyze_password_complexity`, with the keys of the
source dict as fields. -/
structure Analysis where
  score : ℝ
  entropy : ℝ
  has_digits : Bool
  has_lower : Bool
  has_upper : Bool
  has_special : Bool
  length : ℕ
  alphabet_size : ℕ

/-- Embedding of `analyze_password_complexity` (lines 112-145): rejects the
empty password, classifies, computes alphabet size, entropy and score,
clamps the score to [0, 10], rounds it once more, and packages the dict.
The `password is None` case of the source is not representable here. -/
noncomputable def analyze_password_complexity (password : List Char) :
    Except PAError Analysis :=
  if password.length = 0 then .error .invalidInput
  else
    let char_flags := check_password_characters password
    let alphabet_size := compute_alphabet_size char_flags
    let entropy_value := compute_entropy_bits password.length alphabet_size
    match map_entropy_to_score entropy_value with
    | .error e => .error e
    | .ok score0 =>
      let score1 : ℝ := if score0 < 0 then 0 else score0
      let score2 : ℝ := if 10 < score1 then 10 else score1
      .ok { score := round1 score2
            entropy := round1 entropy_value
            has_digits := char_flags.has_digits
            has_lower := char_flags.has_lower
            has_upper := char_flags.has_upper
            has_special := char_flags.has_special
            length := password.length
            alphabet_size := alphabet_size }

/-- The successful result of `analyze_password_complexity` on a non-empty
password, as a total function (the lemma `analyze_eq_ok` below proves that
on non-empty input the embedding returns exactly this). -/
noncomputable def analysisOf (password : List Char) : Analysis :=
  let char_flags := check_password_characters password
  let alphabet_size := compute_alphabet_size char_flags
  let entropy_value := compute_entropy_bits password.length alphabet_size
  let score0 : ℝ :=
    if entropy_value ≤ 0 then 0 else round1 (min (entropy_value / 10) 10)
  let score1 : ℝ := if score0 < 0 then 0 else score0
  let score2 : ℝ := if 10 < score1 then 10 else score1
  { score := round1 score2
    entropy := round1 entropy_value
    has_digits := char_flags.has_digits
    has_lower := char_flags.has_lower
    has_upper := char_flags.has_upper
    has_special := char_flags.has_special
    length := password.length
    alphabet_size := alphabet_size }

/-! ## The process-wide random generator

The source uses the module-level `random` generator.  We model it as an
infinite stream of natural-number draws threaded explicitly through every
randomized operation, so that theorems quantify over every possible sequence
of draws. -/

/-- A state of the pseudorandom generator: the stream of draws it will
produce. -/
abbrev Rand := ℕ → ℕ

/-- Advance the stream past one consumed draw. -/
def rtail (s : Rand) : Rand := fun n => s (n + 1)

/-- Model of `random.choice(seq)`: the element at a stream-chosen index.
The default `d` is never selected at any call site (every sequence passed is
non-empty). -/
def rchoice {α : Type} (seq : List α) (d : α) (s : Rand) : α × Rand :=
  (seq.getD (s 0 % seq.length) d, rtail s)

/-- Model of `random.randint(a, b)` (inclusive bounds; `a ≤ b` at the call
site). -/
def rint (a b : ℤ) (s : Rand) : ℤ × Rand :=
  (a + (s 0 : ℤ) % (b - a + 1), rtail s)

/-- Model of the Bernoulli test `random.random() < 0.3`. -/
def rcoin (s : Rand) : Bool × Rand :=
  (s 0 % 10 < 3, rtail s)

/-- Worker for `rshuffle`, structurally recursive on a fuel bound.  Each
step extracts the element at a stream-chosen index; with fuel at least the
length of the list this produces an arbitrary stream-chosen permutation. -/
def rshuffleGo : ℕ → List Char → Rand → List Char × Rand
  | 0, l, s => (l, s)
  | fuel + 1, l, s =>
    if l.length = 0 then (l, s)
    else
      let i := s 0 % l.length
      let rest := rshuffleGo fuel (l.eraseIdx i) (rtail s)
      (l.getD i 'A' :: rest.1, rest.2)

/-- Model of `random.shuffle(lst)`: a stream-chosen permutation of the
list. -/
def rshuffle (l : List Char) (s : Rand) : List Char × Rand :=
  rshuffleGo l.length l s

/-- Model of `random.sample(population, k)`: `k` elements drawn without
replacement, each at a stream-chosen position. -/
def rsample {α : Type} (d : α) : ℕ → List α → Rand → List α × Rand
  | 0, _, s => ([], s)
  | _ + 1, [], s => ([], s)
  | k + 1, a :: l', s =>
    let l := a :: l'
    let i := s 0 % l.length
    let rest := rsample d k (l.eraseIdx i) (rtail s)
    (l.getD i d :: rest.1, rest.2)

/-! ## Password synthesizer (`generate_secure_password`, lines 545-619) -/

/-- Embedding of `generate_character_sets` (lines 545-556). -/
structure CharSets where
  digits : List Char
  lower : List Char
  upper : List Char
  special : List Char

def generate_character_sets : CharSets :=
  { digits := "0123456789".toList
    lower := "abcdefghijklmnopqrstuvwxyz".toList
    upper := "ABCDEFGHIJKLMNOPQRSTUVWXYZ".toList
    special := "!@#$%^&*()_+-=[]\x7b\x7d|;:,.<>?\"\x27`~".toList }

/-- Model of Python slicing `text[:t]` for an `int` bound `t` (a negative
`t` counts back from the end of the string). -/
def pySliceTo (l : List Char) (t : ℤ) : List Char :=
  if 0 ≤ t then l.take t.toNat else l.take ((l.length : ℤ) + t).toNat

/-- A run of `n` successive `random.choice(seq)` draws (the padding loop at
lines 602-605). -/
def rchoiceN (seq : List Char) : ℕ → Rand → List Char × Rand
  | 0, s => ([], s)
  | n + 1, s =>
    let c := rchoice seq 'A' s
    let rest := rchoiceN seq n c.2
    (c.1 :: rest.1, rest.2)

/-- Worker for the final `while` loop of `generate_secure_password` (lines
613-615): append one random character and re-truncate while the length is
below `target`.  Each pass through the body grows the string by exactly one
character, so `(target - length)` passes suffice; the fuel argument carries
that bound to make the recursion structural. -/
def whileTopUpGo (all_chars : List Char) (target : ℤ) :
    ℕ → List Char → Rand → List Char × Rand
  | 0, l, s => (l, s)
  | fuel + 1, l, s =>
    if (l.length : ℤ) < target then
      let c := rchoice all_chars 'A' s
      whileTopUpGo all_chars target fuel (pySliceTo (l ++ [c.1]) target) c.2
    else (l, s)

/-- The `while len(generated_password) < target_length` loop. -/
def whileTopUp (all_chars : List Char) (target : ℤ) (l : List Char)
    (s : Rand) : List Char × Rand :=
  whileTopUpGo all_chars target (target - l.length).toNat l s

/-- The four mandatory draws of `generate_secure_password` (lines 586-593):
one character of each class, in source order. -/
def gsp_mandatory (char_sets : CharSets) (s : Rand) : List Char × Rand :=
  let rd := rchoice char_sets.digits 'A' s
  let rl := rchoice char_sets.lower 'A' rd.2
  let ru := rchoice char_sets.upper 'A' rl.2
  let rsp := rchoice char_sets.special 'A' ru.2
  ([rd.1, rl.1, ru.1, rsp.1], rsp.2)

/-- The base-substring step of `generate_secure_password` (lines 595-599):
if room remains below the target, append a slice of the base string of
length `min(len(base), target - 4)` at a generator-chosen offset. -/
def gsp_withBase (base_string : List Char) (target_length : ℤ)
    (mandatory_chars : List Char) (s : Rand) : List Char × Rand :=
  let base_part_max_len : ℤ := min (base_string.length : ℤ) (target_length - 4)
  if 0 < base_part_max_len then
    let ri := rint 0 (max 0 ((base_string.length : ℤ) - base_part_max_len)) s
    (mandatory_chars ++
      (base_string.drop ri.1.toNat).take base_part_max_len.toNat, ri.2)
  else (mandatory_chars, s)

/-- The padding step of `generate_secure_password` (lines 601-605): append
generator-chosen characters of the full alphabet up to the target length. -/
def gsp_padded (all_chars : List Char) (target_length : ℤ)
    (parts : List Char) (s : Rand) : List Char × Rand :=
  if (parts.length : ℤ) < target_length then
    let extra := rchoiceN all_chars (target_length - parts.length).toNat s
    (parts ++ extra.1, extra.2)
  else (parts, s)

/-- Deterministic core of `generate_secure_password` (lines 573-615): the
whole computation between `random.seed(seed_value)` and the final
`random.seed()`.  `pyHash` models Python's (process-stable) `hash` on
strings and `randInit` models `random.seed(v)`: the stream of draws the
deterministically seeded generator will produce.  Both are parameters of
the embedding; theorems quantify over them. -/
def gspCore (pyHash : List Char → ℤ) (randInit : ℤ → Rand)
    (base_string : List Char) (target_length : ℤ) : List Char :=
  let seed_value := pyHash base_string + target_length
  let s0 := randInit seed_value
  let char_sets := generate_character_sets
  let all_chars :=
    char_sets.digits ++ char_sets.lower ++ char_sets.upper ++ char_sets.special
  let mand := gsp_mandatory char_sets s0
  let withBase := gsp_withBase base_string target_length mand.1 mand.2
  let padded := gsp_padded all_chars target_length withBase.1 withBase.2
  let shuffled := rshuffle padded.1 padded.2
  let generated_password := pySliceTo shuffled.1 target_length
  (whileTopUp all_chars target_length generated_password shuffled.2).1

/-- Embedding of `generate_secure_password` (lines 559-619).  `ambient` is
the state of the process-wide generator when the call starts; the body never
reads it, because the call immediately reseeds with the derived seed value.
`reseed` is the fresh nondeterministic state installed by the final
`random.seed()` and returned as the post-call generator state. -/
def generate_secure_password (pyHash : List Char → ℤ) (randInit : ℤ → Rand)
    (ambient reseed : Rand) (base_string : List Char) (target_length : ℤ) :
    Except PAError (List Char × Rand) :=
  if base_string.length = 0 then .error .invalidInput
  else .ok (gspCore pyHash randInit base_string target_length, reseed)

/-! ## Variant generator (`generate_improvement_variants`, lines 205-504) -/

/-- Entry of the variant list built by `generate_improvement_variants` (a
dict in the source, with these four keys). -/
structure Variant where
  password : List Char
  score : ℝ
  description : String
  improvement_type : String

/-- Default used for `rchoice` on variant lists; never selected, since every
list passed is checked non-empty first. -/
noncomputable def dummyVariant : Variant :=
  { password := [], score := 0, description := "", improvement_type := "" }

/-- Embedding of `create_improvement_variant` (lines 205-232).  The source
scores the appended password via `analyze_password_complexity`; every call
site passes a non-empty original password, for which that call returns
exactly `analysisOf` (lemma `analyze_eq_ok`). -/
noncomputable def create_improvement_variant (original_password suffix : List Char)
    (description improvement_type : String) : Variant :=
  { password := original_password ++ suffix
    score := (analysisOf (original_password ++ suffix)).score
    description := description
    improvement_type := improvement_type }

/-- Character set of the helper `get_random_special` (line 276). -/
def variant_special_chars : List Char :=
  "!@#$%^&*()_+-=[]\x7b\x7d|;:,.<>?\"/~`".toList

/-- Embedding of the helper `get_random_digit` (lines 246-252). -/
def get_random_digit (s : Rand) : Char × Rand :=
  rchoice "0123456789".toList 'A' s

/-- Embedding of the helper `get_random_lower` (lines 254-260). -/
def get_random_lower (s : Rand) : Char × Rand :=
  rchoice "abcdefghijklmnopqrstuvwxyz".toList 'A' s

/-- Embedding of the helper `get_random_upper` (lines 262-268). -/
def get_random_upper (s : Rand) : Char × Rand :=
  rchoice "ABCDEFGHIJKLMNOPQRSTUVWXYZ".toList 'A' s

/-- Embedding of the helper `get_random_special` (lines 270-276). -/
def get_random_special (s : Rand) : Char × Rand :=
  rchoice variant_special_chars 'A' s

/-- Embedding of the dict `replacement_options` (lines 354-371), with the
source's key order and per-key option order. -/
def replacement_table : List (Char × List (List Char)) :=
  [('a', ["@".toList, "4".toList]),
   ('e', ["3".toList, "€".toList]),
   ('i', ["1".toList, "!".toList]),
   ('o', ["0".toList, "()".toList]),
   ('s', ["$".toList, "5".toList]),
   ('t', ["7".toList, "+".toList]),
   ('A', ["4".toList, "@".toList]),
   ('E', ["3".toList, "€".toList]),
   ('I', ["1".toList, "!".toList]),
   ('O', ["0".toList, "()".toList]),
   ('S', ["$".toList, "5".toList]),
   ('T', ["7".toList, "+".toList]),
   ('b', ["8".toList, "|3".toList]),
   ('g', ["9".toList, "&".toList]),
   ('l', ["1".toList, "|".toList]),
   ('z', ["2".toList, "%".toList])]

/-- Lookup in `replacement_options` (`char in replacement_options` and
`replacement_options[char]`). -/
def replacement_options (c : Char) : Option (List (List Char)) :=
  (replacement_table.find? (fun e => e.1 == c)).map (fun e => e.2)

/-- The substitution loop of the leet heuristic (lines 373-381): per
character in order, if a substitution is defined, flip the 0.3-coin and
substitute a uniformly chosen option.  Returns the flattened modified
characters and the replacement descriptions, in order. -/
def leet_pass : List Char → Rand → List Char × List String × Rand
  | [], s => ([], [], s)
  | c :: rest, s =>
    match replacement_options c with
    | none =>
      let r := leet_pass rest s
      (c :: r.1, r.2.1, r.2.2)
    | some options =>
      let coin := rcoin s
      if coin.1 then
        let nc := rchoice options [] coin.2
        let r := leet_pass rest nc.2
        (nc.1 ++ r.1,
          ("\x27" ++ String.mk [c] ++ "\x27 заменяется на \x27"
            ++ String.mk nc.1 ++ "\x27") :: r.2.1,
          r.2.2)
      else
        let r := leet_pass rest coin.2
        (c :: r.1, r.2.1, r.2.2)

/-- The weak points collected at lines 396-404, as a tag type.  The source
matches marker substrings of the four description texts; the texts are
mutually non-overlapping, so tag equality models the `in` tests at lines
408-423 exactly and the final `else` at line 431 is unreachable. -/
inductive WeakPoint where
  | noDigits | noUpper | noSpecial | tooShort
deriving DecidableEq

/-- The description texts appended to `weak_points` (lines 396-404). -/
def weak_point_text (oa : Analysis) : WeakPoint → String
  | .noDigits => "нет цифр"
  | .noUpper => "нет заглавных букв"
  | .noSpecial => "нет спецсимволов"
  | .tooShort => "слишком короткий (" ++ toString oa.length ++ " символов)"

/-- The per-weak-point fix of the `smart` heuristic (lines 408-437): the
branch selected by the drawn weak point, returning the fixed password and
the advanced generator.  (The `else` arm at lines 431-437 of the source is
unreachable, since the drawn description always matches one of the four
marker substrings; see `WeakPoint`.) -/
def smart_fix (p : List Char) (wp : WeakPoint) (s : Rand) : List Char × Rand :=
  match wp with
  | .noDigits =>
    let r1 := get_random_digit s
    let r2 := get_random_digit r1.2
    (p ++ [r1.1, r2.1], r2.2)
  | .noUpper =>
    if !p.isEmpty && p.any pyIsAlpha then
      let letter_indices :=
        (List.range p.length).filter (fun i => pyIsAlpha (p.getD i 'A'))
      let ri := rchoice letter_indices 0 s
      (p.set ri.1 (pyToUpper (p.getD ri.1 'A')), ri.2)
    else
      let r1 := get_random_upper s
      (p ++ [r1.1], r1.2)
  | .noSpecial =>
    let r1 := get_random_special s
    (p ++ [r1.1], r1.2)
  | .tooShort =>
    let r1 := get_random_lower s
    let r2 := get_random_upper r1.2
    let r3 := get_random_digit r2.2
    let r4 := get_random_special r3.2
    (p ++ [r1.1, r2.1, r3.1, r4.1], r4.2)

/-- One gated entry of the `improvement_specs` battery (lines 278-321): if
the gate holds, draw the suffix, format the description and append the
variant. -/
noncomputable def spec_variant (p : List Char) (gate : Bool)
    (draw : Rand → List Char × Rand) (mkDescr : List Char → String)
    (improvement_type : String) (s : Rand) : List Variant × Rand :=
  if gate then
    let d := draw s
    ([create_improvement_variant p d.1 (mkDescr d.1) improvement_type], d.2)
  else ([], s)

/-- Heuristic f (lines 323-338): uppercase a uniformly chosen lowercase
position, category `moderate`. -/
noncomputable def cand_upper_lower (p : List Char) (s : Rand) : List Variant × Rand :=
  if !p.isEmpty && p.any pyIsLower then
    let lower_indices := (List.range p.length).filter (fun i => pyIsLower (p.getD i 'A'))
    if lower_indices.isEmpty then ([], s)
    else
      let ri := rchoice lower_indices 0 s
      let variant2 := p.set ri.1 (pyToUpper (p.getD ri.1 'A'))
      ([{ password := variant2, score := (analysisOf variant2).score,
          description := "Случайная буква сделана заглавной (позиция "
            ++ toString (ri.1 + 1) ++ ")",
          improvement_type := "moderate" }], ri.2)
  else ([], s)

/-- Heuristic g (lines 340-351): for short passwords, append the reversed
password and a random digit and special character, category `strong`. -/
noncomputable def cand_reversal (p : List Char) (s : Rand) : List Variant × Rand :=
  if p.length < 20 then
    let r1 := get_random_digit s
    let r2 := get_random_special r1.2
    let variant3 := p ++ p.reverse ++ [r1.1, r2.1]
    ([{ password := variant3, score := (analysisOf variant3).score,
        description := "Пароль удвоен в обратном порядке с добавлением "
          ++ String.mk [r1.1, r2.1],
        improvement_type := "strong" }], r2.2)
  else ([], s)

/-- Heuristic h (lines 353-394): leet-style substitutions, recorded only if
at least one substitution occurred, category `creative`. -/
noncomputable def cand_leet (p : List Char) (s : Rand) : List Variant × Rand :=
  if !p.isEmpty then
    let lp := leet_pass p s
    if lp.2.1.isEmpty then ([], lp.2.2)
    else
      ([{ password := lp.1, score := (analysisOf lp.1).score,
          description := "Заменены символы: "
            ++ String.intercalate ", " (lp.2.1.take 3)
            ++ (if 3 < lp.2.1.length then " и другие" else ""),
          improvement_type := "creative" }], lp.2.2)
  else ([], s)

/-- The `weak_points` list collected at lines 396-404, in source order. -/
def weak_points_of (oa : Analysis) : List WeakPoint :=
  (if !oa.has_digits then [.noDigits] else []) ++
  (if !oa.has_upper then [.noUpper] else []) ++
  (if !oa.has_special then [.noSpecial] else []) ++
  (if oa.length < 8 then [.tooShort] else [])

/-- Heuristic i (lines 396-447): fix one uniformly chosen weak point,
category `smart`. -/
noncomputable def cand_smart (p : List Char) (oa : Analysis) (s : Rand) :
    List Variant × Rand :=
  let weak_points := weak_points_of oa
  if !weak_points.isEmpty then
    let rw := rchoice weak_points WeakPoint.noDigits s
    let fixed := smart_fix p rw.1 rw.2
    ([{ password := fixed.1, score := (analysisOf fixed.1).score,
        description := "Исправлено: " ++ weak_point_text oa rw.1,
        improvement_type := "smart" }], fixed.2)
  else ([], s)

/-- Heuristic j (lines 449-474): for short passwords, shuffle the password
plus one random character of each class and truncate to
`max 8 (length + 4)`, category `strong`. -/
noncomputable def cand_shuffle (p : List Char) (s : Rand) : List Variant × Rand :=
  if p.length < 15 then
    let r1 := get_random_digit s
    let r2 := get_random_lower r1.2
    let r3 := get_random_upper r2.2
    let r4 := get_random_special r3.2
    let sh := rshuffle (p ++ [r1.1, r2.1, r3.1, r4.1]) r4.2
    let target_length := max 8 (p.length + 4)
    let variant6 :=
      if target_length < sh.1.length then sh.1.take target_length else sh.1
    ([{ password := variant6, score := (analysisOf variant6).score,
        description := "Случайная перестановка с добавлением следующих символов",
        improvement_type := "strong" }], sh.2)
  else ([], s)

/-- The candidate pool built by `generate_improvement_variants` before
post-processing (lines 243-474): the `improvement_specs` battery followed by
the five ad-hoc heuristics, in source order, threading the generator. -/
noncomputable def candidate_pool (p : List Char) (s : Rand) : List Variant × Rand :=
  let oa := analysisOf p
  let c1 := spec_variant p (!oa.has_digits)
    (fun s => let r := get_random_digit s; ([r.1], r.2))
    (fun suf => "Добавлена цифра " ++ String.mk suf ++ " в конец") "simple" s
  let c2 := spec_variant p (!oa.has_upper)
    (fun s => let r := get_random_upper s; ([r.1], r.2))
    (fun suf => "Добавлена заглавная буква " ++ String.mk suf ++ " в конец")
    "moderate" c1.2
  let c3 := spec_variant p (!oa.has_special)
    (fun s => let r := get_random_special s; ([r.1], r.2))
    (fun suf => "Добавлен специальный символ " ++ String.mk suf) "good" c2.2
  let c4 := spec_variant p true
    (fun s =>
      let r1 := get_random_digit s
      let r2 := get_random_special r1.2
      ([r1.1, r2.1], r2.2))
    (fun suf => "Добавлена случайная комбинация " ++ String.mk suf) "better" c3.2
  let c5 := spec_variant p true
    (fun s =>
      let r1 := get_random_lower s
      let r2 := get_random_upper r1.2
      let r3 := get_random_digit r2.2
      let r4 := get_random_special r3.2
      ([r1.1, r2.1, r3.1, r4.1], r4.2))
    (fun suf => "Добавлен случайный паттерн " ++ String.mk suf) "excellent" c4.2
  let c6 := cand_upper_lower p c5.2
  let c7 := cand_reversal p c6.2
  let c8 := cand_leet p c7.2
  let c9 := cand_smart p oa c8.2
  let c10 := cand_shuffle p c9.2
  (c1.1 ++ c2.1 ++ c3.1 ++ c4.1 ++ c5.1 ++ c6.1 ++ c7.1 ++ c8.1 ++ c9.1
    ++ c10.1, c10.2)

/-- The eight improvement categories, in source order (lines 480-489). -/
def complexity_levels : List String :=
  ["simple", "moderate", "good", "better", "excellent", "strong", "creative",
   "smart"]

open Classical in
/-- The comparison used by `list.sort(key=lambda x: x["score"])`. -/
noncomputable def score_le (a b : Variant) : Bool :=
  decide (a.score ≤ b.score)

/-- The per-category selection loop (lines 490-498): for each level in
order, uniformly choose one candidate of that level, if any. -/
noncomputable def pick_levels (pool : List Variant) :
    List String → Rand → List Variant × Rand
  | [], s => ([], s)
  | level :: rest, s =>
    let level_variants := pool.filter (fun v => v.improvement_type == level)
    if level_variants.isEmpty then pick_levels pool rest s
    else
      let rc := rchoice level_variants dummyVariant s
      let tl := pick_levels pool rest rc.2
      (rc.1 :: tl.1, tl.2)

open Classical in
/-- Post-processing of the candidate pool (lines 476-504): keep the strict
improvements, sort ascending by score, keep one candidate per category,
sample down to 5 if more categories survive, re-sort and cap at 5. -/
noncomputable def postprocess (original_score : ℝ) (variants : List Variant)
    (s : Rand) : List Variant × Rand :=
  let filtered_variants := variants.filter (fun v => decide (original_score < v.score))
  let sorted := filtered_variants.mergeSort score_le
  let final := pick_levels sorted complexity_levels s
  let sampled :=
    if 5 < final.1.length then rsample dummyVariant 5 final.1 final.2 else final
  ((sampled.1.mergeSort score_le).take 5, sampled.2)

/-- Core of `generate_improvement_variants` on a non-empty password. -/
noncomputable def gvCore (original_password : List Char) (s : Rand) :
    List Variant × Rand :=
  let pool := candidate_pool original_password s
  postprocess (analysisOf original_password).score pool.1 pool.2

/-- Embedding of `generate_improvement_variants` (lines 235-504).  The
empty-password `ValueError` is the one raised by the
`analyze_password_complexity` call at line 244. -/
noncomputable def generate_improvement_variants (original_password : List Char)
    (s : Rand) : Except PAError (List Variant × Rand) :=
  if original_password.length = 0 then .error .invalidInput
  else .ok (gvCore original_password s)

/-! ## Spec-side formulas (written from the spec's words, for the
refinement statements) -/

/-- Spec formula: `alphabetSize` is the sum of the fixed per-class sizes
{digits: 10, lower: 26, upper: 26, special: 32} over the flags set true. -/
def spec_alphabetSize (p : List Char) : ℕ :=
  (if (check_password_characters p).has_digits then 10 else 0) +
  (if (check_password_characters p).has_lower then 26 else 0) +
  (if (check_password_characters p).has_upper then 26 else 0) +
  (if (check_password_characters p).has_special then 32 else 0)

/-- Spec formula: `entropyBits = log2(alphabetSize ^ length)` when both are
positive, else 0. -/
noncomputable def spec_entropyBits (p : List Char) : ℝ :=
  if 0 < p.length ∧ 0 < spec_alphabetSize p then
    Real.logb 2 ((spec_alphabetSize p : ℝ) ^ p.length)
  else 0

/-- Spec formula: `score = min(entropyBits / 10, 10)` rounded to one
decimal. -/
noncomputable def spec_score (p : List Char) : ℝ :=
  round1 (min (spec_entropyBits p / 10) 10)

/-! ## Basic facts about the scorer -/

theorem compute_entropy_bits_nonneg (n a : ℤ) : 0 ≤ compute_entropy_bits n a := by
  unfold compute_entropy_bits
  split
  · exact le_refl 0
  · rename_i h
    push_neg at h
    dsimp only
    split
    · exact le_refl 0
    · rename_i h2
      push_neg at h2
      refine Real.logb_nonneg one_lt_two ?_
      exact_mod_cast h2

theorem analyze_eq_ok (password : List Char) (h : password.length ≠ 0) :
    analyze_password_complexity password = .ok (analysisOf password) := by
  have hnn := compute_entropy_bits_nonneg (password.length)
    (compute_alphabet_size (check_password_characters password))
  unfold analyze_password_complexity analysisOf map_entropy_to_score
  rw [if_neg h]
  dsimp only
  rw [if_neg (not_lt.mpr hnn)]
  by_cases h0 : compute_entropy_bits (password.length)
      (compute_alphabet_size (check_password_characters password)) ≤ 0
  · simp only [if_pos h0]
  · simp only [if_neg h0]

theorem getElem_cons_eraseIdx_perm {α : Type} [DecidableEq α] (l : List α)
    (i : ℕ) (h : i < l.length) : List.Perm (l[i] :: l.eraseIdx i) l :=
  ((List.perm_cons_erase (List.getElem_mem h)).trans
    ((List.erase_getElem h).cons _)).symm

theorem rchoice_mem {α : Type} (seq : List α) (d : α) (s : Rand)
    (h : seq ≠ []) : (rchoice seq d s).1 ∈ seq := by
  have hl : s 0 % seq.length < seq.length :=
    Nat.mod_lt _ (List.length_pos.mpr h)
  simp only [rchoice, List.getD_eq_getElem seq d hl]
  exact List.getElem_mem hl

theorem rshuffleGo_perm (fuel : ℕ) : ∀ (l : List Char) (s : Rand),
    List.Perm (rshuffleGo fuel l s).1 l := by
  induction fuel with
  | zero => intro l s; exact List.Perm.refl l
  | succ fuel ih =>
    intro l s
    by_cases h : l.length = 0
    · simp only [rshuffleGo, if_pos h]
      exact List.Perm.refl l
    · have hl : s 0 % l.length < l.length := Nat.mod_lt _ (Nat.pos_of_ne_zero h)
      simp only [rshuffleGo, if_neg h, List.getD_eq_getElem l 'A' hl]
      exact ((ih _ _).cons _).trans (getElem_cons_eraseIdx_perm l _ hl)

theorem rshuffle_perm (l : List Char) (s : Rand) :
    List.Perm (rshuffle l s).1 l :=
  rshuffleGo_perm l.length l s

theorem rsample_subperm {α : Type} [DecidableEq α] (d : α) (k : ℕ) :
    ∀ (l : List α) (s : Rand), List.Subperm (rsample d k l s).1 l := by
  induction k with
  | zero => intro l s; exact List.nil_subperm
  | succ k ih =>
    intro l s
    match l with
    | [] => exact List.nil_subperm
    | a :: l' =>
      have hl : s 0 % (a :: l').length < (a :: l').length :=
        Nat.mod_lt _ (by simp)
      simp only [rsample, List.getD_eq_getElem _ d hl]
      refine List.Subperm.trans ?_ (getElem_cons_eraseIdx_perm _ _ hl).subperm
      exact (List.subperm_cons _).mpr (ih _ _)

theorem whileTopUp_of_not_lt (all_chars : List Char) (target : ℤ)
    (l : List Char) (s : Rand) (h : ¬ (l.length : ℤ) < target) :
    whileTopUp all_chars target l s = (l, s) := by
  unfold whileTopUp
  cases hf : (target - (l.length : ℤ)).toNat with
  | zero => rfl
  | succ fuel => simp only [whileTopUpGo, if_neg h]

/-! ## Facts about the variant generator -/

theorem replacement_table_entries :
    ∀ e ∈ replacement_table, e.2 ≠ [] ∧ ∀ x ∈ e.2, x ≠ [] := by
  decide

theorem replacement_options_sound (c : Char) (o : List (List Char))
    (h : replacement_options c = some o) : o ≠ [] ∧ ∀ x ∈ o, x ≠ [] := by
  unfold replacement_options at h
  cases hf : replacement_table.find? (fun e => e.1 == c) with
  | none => rw [hf] at h; simp at h
  | some e =>
    rw [hf] at h
    simp only [Option.map_some', Option.some.injEq] at h
    subst h
    exact replacement_table_entries e (List.mem_of_find?_eq_some hf)

theorem leet_pass_length : ∀ (l : List Char) (s : Rand),
    l.length ≤ (leet_pass l s).1.length := by
  intro l
  induction l with
  | nil => intro s; simp [leet_pass]
  | cons c rest ih =>
    intro s
    unfold leet_pass
    cases ho : replacement_options c with
    | none =>
      dsimp only
      simpa using ih s
    | some options =>
      dsimp only
      by_cases hc : (rcoin s).1
      · rw [if_pos hc]
        dsimp only
        obtain ⟨hne, hall⟩ := replacement_options_sound c options ho
        have hmem := rchoice_mem options [] (rcoin s).2 hne
        have hlen : 1 ≤ (rchoice options [] (rcoin s).2).1.length :=
          List.length_pos.mpr (hall _ hmem)
        simp only [List.length_cons, List.length_append]
        have := ih (rchoice options [] (rcoin s).2).2
        omega
      · rw [if_neg hc]
        dsimp only
        simpa using ih (rcoin s).2

theorem create_improvement_variant_length (p suf : List Char) (d t : String) :
    p.length ≤ (create_improvement_variant p suf d t).password.length := by
  simp [create_improvement_variant]

theorem mem_spec_variant {p : List Char} {g : Bool}
    {dr : Rand → List Char × Rand} {md : List Char → String} {ty : String}
    {s : Rand} {v : Variant} (h : v ∈ (spec_variant p g dr md ty s).1) :
    ∃ suf descr t, v = create_improvement_variant p suf descr t := by
  unfold spec_variant at h
  split at h
  · simp only [List.mem_singleton] at h
    exact ⟨_, _, _, h⟩
  · simp at h

theorem smart_fix_length (p : List Char) (wp : WeakPoint) (s : Rand) :
    p.length ≤ (smart_fix p wp s).1.length := by
  cases wp with
  | noDigits => simp [smart_fix]
  | noUpper =>
    unfold smart_fix
    dsimp only
    split
    · simp [List.length_set]
    · simp
  | noSpecial => simp [smart_fix]
  | tooShort => simp [smart_fix]

theorem cand_upper_lower_length (p : List Char) (s : Rand) :
    ∀ v ∈ (cand_upper_lower p s).1, p.length ≤ v.password.length := by
  intro v h
  unfold cand_upper_lower at h
  split at h
  · dsimp only at h
    split at h
    · simp at h
    · simp only [List.mem_singleton] at h
      subst h
      simp [List.length_set]
  · simp at h

theorem cand_reversal_length (p : List Char) (s : Rand) :
    ∀ v ∈ (cand_reversal p s).1, p.length ≤ v.password.length := by
  intro v h
  unfold cand_reversal at h
  split at h
  · simp only [List.mem_singleton] at h
    subst h
    simp only [List.length_append]
    omega
  · simp at h

theorem cand_leet_length (p : List Char) (s : Rand) :
    ∀ v ∈ (cand_leet p s).1, p.length ≤ v.password.length := by
  intro v h
  unfold cand_leet at h
  split at h
  · dsimp only at h
    split at h
    · simp at h
    · simp only [List.mem_singleton] at h
      subst h
      exact leet_pass_length p _
  · simp at h

theorem cand_smart_length (p : List Char) (oa : Analysis) (s : Rand) :
    ∀ v ∈ (cand_smart p oa s).1, p.length ≤ v.password.length := by
  intro v h
  simp only [cand_smart] at h
  split at h
  · simp only [List.mem_singleton] at h
    subst h
    exact smart_fix_length p _ _
  · simp at h

theorem cand_shuffle_length (p : List Char) (s : Rand) :
    ∀ v ∈ (cand_shuffle p s).1, p.length ≤ v.password.length := by
  intro v h
  unfold cand_shuffle at h
  split at h
  · simp only [List.mem_singleton] at h
    subst h
    have hlen : ∀ s2 : Rand, ∀ extra : List Char, extra.length = 4 →
        ((rshuffle (p ++ extra) s2).1).length = p.length + 4 := by
      intro s2 extra hx
      rw [(rshuffle_perm _ _).length_eq, List.length_append, hx]
    dsimp only
    rw [if_neg]
    · rw [hlen _ _ (by simp)]
      omega
    · rw [hlen _ _ (by simp)]
      exact not_lt.mpr (le_max_right 8 (p.length + 4))
  · simp at h

theorem candidate_pool_password_length (p : List Char) (s : Rand) :
    ∀ v ∈ (candidate_pool p s).1, p.length ≤ v.password.length := by
  intro v hv
  simp only [candidate_pool, List.mem_append] at hv
  rcases hv with ((((((((h | h) | h) | h) | h) | h) | h) | h) | h) | h
  · obtain ⟨suf, d, t, rfl⟩ := mem_spec_variant h
    exact create_improvement_variant_length p suf d t
  · obtain ⟨suf, d, t, rfl⟩ := mem_spec_variant h
    exact create_improvement_variant_length p suf d t
  · obtain ⟨suf, d, t, rfl⟩ := mem_spec_variant h
    exact create_improvement_variant_length p suf d t
  · obtain ⟨suf, d, t, rfl⟩ := mem_spec_variant h
    exact create_improvement_variant_length p suf d t
  · obtain ⟨suf, d, t, rfl⟩ := mem_spec_variant h
    exact create_improvement_variant_length p suf d t
  · exact cand_upper_lower_length p _ v h
  · exact cand_reversal_length p _ v h
  · exact cand_leet_length p _ v h
  · exact cand_smart_length p _ _ v h
  · exact cand_shuffle_length p _ v h

theorem complexity_levels_pairwise : complexity_levels.Pairwise (· ≠ ·) := by
  decide

theorem pick_levels_spec (pool : List Variant) : ∀ (L : List String) (s : Rand),
    (∀ v ∈ (pick_levels pool L s).1, v ∈ pool ∧ v.improvement_type ∈ L) ∧
    (L.Pairwise (· ≠ ·) →
      (pick_levels pool L s).1.Pairwise
        (fun a b => a.improvement_type ≠ b.improvement_type)) := by
  intro L
  induction L with
  | nil =>
    intro s
    constructor
    · intro v hv; simp [pick_levels] at hv
    · intro _; simp [pick_levels]
  | cons level rest ih =>
    intro s
    unfold pick_levels
    dsimp only
    by_cases he : (pool.filter (fun v => v.improvement_type == level)).isEmpty
    · rw [if_pos he]
      refine ⟨fun v hv => ?_, fun hp => ?_⟩
      · obtain ⟨h1, h2⟩ := (ih s).1 v hv
        exact ⟨h1, List.mem_cons_of_mem _ h2⟩
      · exact (ih s).2 (List.Pairwise.sublist (List.sublist_cons_self _ _) hp)
    · rw [if_neg he]
      dsimp only
      have hne : pool.filter (fun v => v.improvement_type == level) ≠ [] := by
        intro hnil; rw [hnil] at he; simp at he
      have hhead := rchoice_mem _ dummyVariant s hne
      obtain ⟨hhp, hht⟩ := List.mem_filter.mp hhead
      have hhty : ((rchoice (pool.filter (fun v => v.improvement_type == level))
          dummyVariant s).1).improvement_type = level := by
        exact eq_of_beq hht
      refine ⟨fun v hv => ?_, fun hp => ?_⟩
      · rcases List.mem_cons.mp hv with rfl | hv2
        · exact ⟨hhp, by rw [hhty]; exact List.mem_cons_self _ _⟩
        · obtain ⟨h1, h2⟩ := (ih _).1 v hv2
          exact ⟨h1, List.mem_cons_of_mem _ h2⟩
      · rcases List.pairwise_cons.mp hp with ⟨hlvl, hrest⟩
        refine List.pairwise_cons.mpr ⟨fun b hb => ?_, (ih _).2 hrest⟩
        have hbt := ((ih _).1 b hb).2
        rw [hhty]
        intro hEq
        rw [← hEq] at hbt
        exact hlvl _ hbt rfl

theorem score_le_trans : ∀ a b c : Variant,
    score_le a b = true → score_le b c = true → score_le a c = true := by
  intro a b c hab hbc
  exact decide_eq_true (le_trans (of_decide_eq_true hab) (of_decide_eq_true hbc))

theorem score_le_total : ∀ a b : Variant,
    (score_le a b || score_le b a) = true := by
  intro a b
  rcases le_total a.score b.score with h | h
  · exact Or.inl (decide_eq_true h) |> Bool.or_eq_true_iff.mpr
  · exact Or.inr (decide_eq_true h) |> Bool.or_eq_true_iff.mpr

theorem postprocess_spec (o : ℝ) (vs : List Variant) (s : Rand) :
    (postprocess o vs s).1.length ≤ 5 ∧
    (∀ v ∈ (postprocess o vs s).1, v ∈ vs ∧ o < v.score) ∧
    (postprocess o vs s).1.Pairwise
      (fun a b => a.improvement_type ≠ b.improvement_type) ∧
    (postprocess o vs s).1.Sorted (fun a b => a.score ≤ b.score) := by
  classical
  unfold postprocess
  dsimp only
  set filtered := vs.filter (fun v => decide (o < v.score)) with hfiltered
  set sorted1 := filtered.mergeSort score_le with hsorted1
  set final := pick_levels sorted1 complexity_levels s with hfinal
  set sampled :=
    if 5 < final.1.length then rsample dummyVariant 5 final.1 final.2 else final
    with hsampled
  have hsub : List.Subperm sampled.1 final.1 := by
    rw [hsampled]
    split
    · exact rsample_subperm dummyVariant 5 final.1 final.2
    · exact (List.Perm.refl _).subperm
  have hperm1 : List.Perm sorted1 filtered := List.mergeSort_perm filtered score_le
  have hperm2 : List.Perm (sampled.1.mergeSort score_le) sampled.1 :=
    List.mergeSort_perm sampled.1 score_le
  have hmem : ∀ v ∈ (sampled.1.mergeSort score_le).take 5, v ∈ vs ∧ o < v.score := by
    intro v hv
    have h1 : v ∈ sampled.1 := hperm2.mem_iff.mp ((List.take_sublist 5 _).subset hv)
    have h2 : v ∈ final.1 := hsub.subset h1
    have h3 := ((pick_levels_spec sorted1 complexity_levels s).1 v h2).1
    have h4 : v ∈ filtered := hperm1.mem_iff.mp h3
    obtain ⟨h5, h6⟩ := List.mem_filter.mp h4
    exact ⟨h5, of_decide_eq_true h6⟩
  refine ⟨List.length_take_le 5 _, hmem, ?_, ?_⟩
  · have hp1 : final.1.Pairwise (fun a b => a.improvement_type ≠ b.improvement_type) :=
      (pick_levels_spec sorted1 complexity_levels s).2 complexity_levels_pairwise
    obtain ⟨mid, hmidp, hmids⟩ := hsub
    have hp2 : mid.Pairwise (fun a b => a.improvement_type ≠ b.improvement_type) :=
      List.Pairwise.sublist hmids hp1
    have hp3 : sampled.1.Pairwise (fun a b => a.improvement_type ≠ b.improvement_type) :=
      (List.Perm.pairwise_iff (fun h => h.symm) hmidp).mp hp2
    have hp4 := (List.Perm.pairwise_iff
      (fun {x y} (h : x.improvement_type ≠ y.improvement_type) => h.symm)
      hperm2).mpr hp3
    exact List.Pairwise.sublist (List.take_sublist 5 _) hp4
  · have hs1 : (sampled.1.mergeSort score_le).Pairwise (fun a b => score_le a b = true) :=
      List.sorted_mergeSort score_le_trans score_le_total sampled.1
    have hs2 : (sampled.1.mergeSort score_le).Sorted (fun a b => a.score ≤ b.score) :=
      hs1.imp (fun h => of_decide_eq_true h)
    exact List.Pairwise.sublist (List.take_sublist 5 _) hs2

theorem gv_eq_ok (p : List Char) (s : Rand) (h : p.length ≠ 0) :
    generate_improvement_variants p s = .ok ((gvCore p s).1, (gvCore p s).2) := by
  unfold generate_improvement_variants
  rw [if_neg h]

/-! ## Rounding facts -/

theorem round_mono {a b : ℝ} (h : a ≤ b) : round a ≤ round b := by
  rw [round_eq, round_eq]
  exact Int.floor_le_floor (by linarith)

theorem round1_zero : round1 0 = 0 := by
  unfold round1
  norm_num

theorem round1_nonneg {x : ℝ} (h : 0 ≤ x) : 0 ≤ round1 x := by
  unfold round1
  have h2 : (0 : ℤ) ≤ round (10 * x) := by
    have h3 := round_mono (by linarith : (0 : ℝ) ≤ 10 * x)
    simpa using h3
  have h4 : (0 : ℝ) ≤ (round (10 * x) : ℤ) := by exact_mod_cast h2
  positivity

theorem round1_le_ten {x : ℝ} (h : x ≤ 10) : round1 x ≤ 10 := by
  unfold round1
  have h2 : round (10 * x) ≤ round ((100 : ℤ) : ℝ) :=
    round_mono (by push_cast; linarith)
  rw [round_intCast] at h2
  rw [div_le_iff₀ (by norm_num : (0:ℝ) < 10)]
  have h3 : ((round (10 * x) : ℤ) : ℝ) ≤ ((100 : ℤ) : ℝ) := by exact_mod_cast h2
  push_cast at h3 ⊢
  linarith

theorem round1_idem (x : ℝ) : round1 (round1 x) = round1 x := by
  unfold round1
  have h : (10 : ℝ) * ((round (10 * x) : ℤ) / 10) = ((round (10 * x) : ℤ) : ℝ) := by
    ring
  rw [h, round_intCast]

/-! ## The scorer matches the spec formulas -/

theorem compute_alphabet_size_eq (p : List Char) :
    compute_alphabet_size (check_password_characters p) = spec_alphabetSize p := by
  unfold compute_alphabet_size spec_alphabetSize
  cases h1 : (check_password_characters p).has_digits <;>
    cases h2 : (check_password_characters p).has_lower <;>
      cases h3 : (check_password_characters p).has_upper <;>
        cases h4 : (check_password_characters p).has_special <;>
          rfl

theorem compute_entropy_bits_eq (p : List Char) :
    compute_entropy_bits (p.length)
      (compute_alphabet_size (check_password_characters p)) = spec_entropyBits p := by
  rw [compute_alphabet_size_eq]
  unfold compute_entropy_bits spec_entropyBits
  by_cases h : 0 < p.length ∧ 0 < spec_alphabetSize p
  · rw [if_neg (by omega), if_pos h]
    dsimp only
    rw [Int.toNat_natCast]
    rw [if_neg (not_le.mpr (pow_pos (by exact_mod_cast h.2) p.length))]
    push_cast
    rfl
  · rw [if_pos (by omega), if_neg h]

theorem analysisOf_fields (p : List Char) :
    (analysisOf p).alphabet_size = spec_alphabetSize p ∧
    (analysisOf p).entropy = round1 (spec_entropyBits p) ∧
    (analysisOf p).score = spec_score p ∧
    0 ≤ (analysisOf p).score ∧ (analysisOf p).score ≤ 10 := by
  have hnn := compute_entropy_bits_nonneg (p.length)
    (compute_alphabet_size (check_password_characters p))
  rw [compute_entropy_bits_eq] at hnn
  unfold analysisOf spec_score
  dsimp only
  rw [compute_entropy_bits_eq, compute_alphabet_size_eq]
  refine ⟨rfl, rfl, ?_⟩
  by_cases h0 : spec_entropyBits p ≤ 0
  · have he0 : spec_entropyBits p = 0 := le_antisymm h0 hnn
    rw [if_pos h0]
    rw [if_neg (lt_irrefl (0 : ℝ))]
    rw [if_neg (by norm_num : ¬ (10 : ℝ) < 0)]
    rw [he0]
    rw [show min ((0 : ℝ) / 10) 10 = 0 by norm_num]
    rw [round1_zero]
    norm_num
  · rw [if_neg h0]
    have h1 : 0 ≤ min (spec_entropyBits p / 10) 10 :=
      le_min (div_nonneg hnn (by norm_num)) (by norm_num)
    have h2 : min (spec_entropyBits p / 10) 10 ≤ 10 := min_le_right _ _
    have h1r := round1_nonneg h1
    have h2r := round1_le_ten h2
    rw [if_neg (not_lt.mpr h1r), if_neg (not_lt.mpr h2r)]
    rw [round1_idem]
    exact ⟨rfl, h1r, h2r⟩

/-! ## Claim theorems -/

/-- Claim C1: for every non-empty password `p`, every variant returned by
`generateVariants(p)` has a score strictly greater than `analyze(p).score`,
the returned list has at most 5 elements, and every variant's password
string is at least as long as `p`. -/
theorem variants_strictly_improve_bounded_and_monotone
    (p : List Char) (s : Rand) (hp : p ≠ []) (a : Analysis)
    (ha : analyze_password_complexity p = .ok a)
    (l : List Variant) (s2 : Rand)
    (hl : generate_improvement_variants p s = .ok (l, s2)) :
    l.length ≤ 5 ∧
    ∀ v ∈ l, a.score < v.score ∧ p.length ≤ v.password.length := by
  have hlen : p.length ≠ 0 := fun h => hp (List.length_eq_zero.mp h)
  rw [analyze_eq_ok p hlen] at ha
  have ha2 : analysisOf p = a := Except.ok.inj ha
  rw [gv_eq_ok p s hlen] at hl
  have hl2 : (gvCore p s).1 = l := congrArg Prod.fst (Except.ok.inj hl)
  subst ha2
  subst hl2
  have hg : (gvCore p s).1 =
      (postprocess (analysisOf p).score (candidate_pool p s).1
        (candidate_pool p s).2).1 := rfl
  rw [hg]
  obtain ⟨h5, hmem, -, -⟩ := postprocess_spec (analysisOf p).score
    (candidate_pool p s).1 (candidate_pool p s).2
  refine ⟨h5, fun v hv => ?_⟩
  obtain ⟨hpool, hscore⟩ := hmem v hv
  exact ⟨hscore, candidate_pool_password_length p s v hpool⟩

/-- Witness for C1 at the concrete password `"a"` and the all-zero draw
stream. -/
theorem variants_strictly_improve_bounded_and_monotone_witness :
    (gvCore ['a'] (fun _ => 0)).1.length ≤ 5 ∧
    ∀ v ∈ (gvCore ['a'] (fun _ => 0)).1,
      (analysisOf ['a']).score < v.score ∧
      (['a'] : List Char).length ≤ v.password.length :=
  variants_strictly_improve_bounded_and_monotone ['a'] (fun _ => 0)
    (by decide) (analysisOf ['a']) (analyze_eq_ok ['a'] (by decide))
    (gvCore ['a'] (fun _ => 0)).1 (gvCore ['a'] (fun _ => 0)).2
    (gv_eq_ok ['a'] (fun _ => 0) (by decide))

/-- Claim C9: for every non-empty password, the list returned by
`generateVariants` contains at most one variant per improvement category,
and is sorted ascending by score. -/
theorem variants_one_per_category_and_sorted
    (p : List Char) (s : Rand) (hp : p ≠ [])
    (l : List Variant) (s2 : Rand)
    (hl : generate_improvement_variants p s = .ok (l, s2)) :
    l.Pairwise (fun a b => a.improvement_type ≠ b.improvement_type) ∧
    l.Sorted (fun a b => a.score ≤ b.score) := by
  have hlen : p.length ≠ 0 := fun h => hp (List.length_eq_zero.mp h)
  rw [gv_eq_ok p s hlen] at hl
  have hl2 : (gvCore p s).1 = l := congrArg Prod.fst (Except.ok.inj hl)
  subst hl2
  have hg : (gvCore p s).1 =
      (postprocess (analysisOf p).score (candidate_pool p s).1
        (candidate_pool p s).2).1 := rfl
  rw [hg]
  obtain ⟨-, -, hpw, hsorted⟩ := postprocess_spec (analysisOf p).score
    (candidate_pool p s).1 (candidate_pool p s).2
  exact ⟨hpw, hsorted⟩

/-- Witness for C9 at the concrete password `"ab"` and the all-zero draw
stream. -/
theorem variants_one_per_category_and_sorted_witness :
    (gvCore ['a', 'b'] (fun _ => 0)).1.Pairwise
      (fun a b => a.improvement_type ≠ b.improvement_type) ∧
    (gvCore ['a', 'b'] (fun _ => 0)).1.Sorted (fun a b => a.score ≤ b.score) :=
  variants_one_per_category_and_sorted ['a', 'b'] (fun _ => 0) (by decide)
    (gvCore ['a', 'b'] (fun _ => 0)).1 (gvCore ['a', 'b'] (fun _ => 0)).2
    (gv_eq_ok ['a', 'b'] (fun _ => 0) (by decide))

/-- Claim C5: `analyze`, `generateVariants` and `synthesize` fail with
`InvalidInput` when the password or seed is empty, and `analyze` and
`generateVariants` do not fail when it is non-empty.  (The `None` case of
the source is not representable in the embedding.) -/
theorem empty_inputs_rejected_nonempty_accepted :
    analyze_password_complexity [] = .error .invalidInput ∧
    (∀ s : Rand, generate_improvement_variants [] s = .error .invalidInput) ∧
    (∀ (h : List Char → ℤ) (ri : ℤ → Rand) (g r : Rand) (t : ℤ),
      generate_secure_password h ri g r [] t = .error .invalidInput) ∧
    ∀ p : List Char, p ≠ [] →
      (analyze_password_complexity p).isOk = true ∧
      ∀ s : Rand, (generate_improvement_variants p s).isOk = true := by
  refine ⟨rfl, fun s => rfl, fun h ri g r t => rfl, fun p hp => ?_⟩
  have hlen : p.length ≠ 0 := fun h => hp (List.length_eq_zero.mp h)
  constructor
  · rw [analyze_eq_ok p hlen]; rfl
  · intro s; rw [gv_eq_ok p s hlen]; rfl

/-- Witness for C5's non-empty half at the concrete password `"a"`. -/
theorem empty_inputs_rejected_nonempty_accepted_witness :
    (analyze_password_complexity ['a']).isOk = true ∧
    (generate_improvement_variants ['a'] (fun _ => 0)).isOk = true :=
  ⟨(empty_inputs_rejected_nonempty_accepted.2.2.2 ['a'] (by decide)).1,
   (empty_inputs_rejected_nonempty_accepted.2.2.2 ['a'] (by decide)).2 (fun _ => 0)⟩

/-- Claim C10: for every non-empty password, the entropy `analyze` passes to
the score mapping is non-negative, so `analyze` never fails with the
`InvalidState` error. -/
theorem analyze_entropy_nonneg_invalid_state_unreachable
    (p : List Char) (hp : p ≠ []) :
    0 ≤ compute_entropy_bits (p.length)
        (compute_alphabet_size (check_password_characters p)) ∧
    analyze_password_complexity p ≠ .error .invalidState := by
  refine ⟨compute_entropy_bits_nonneg _ _, ?_⟩
  rw [analyze_eq_ok p (fun h => hp (List.length_eq_zero.mp h))]
  simp

/-- Witness for C10 at the concrete password `"a"`. -/
theorem analyze_entropy_nonneg_invalid_state_unreachable_witness :
    0 ≤ compute_entropy_bits (((['a'] : List Char).length))
        (compute_alphabet_size (check_password_characters ['a'])) ∧
    analyze_password_complexity ['a'] ≠ .error .invalidState :=
  analyze_entropy_nonneg_invalid_state_unreachable ['a'] (by decide)

/-- Claim C4: for every non-empty password, the analysis satisfies the spec
formulas: `alphabetSize` is the flag-weighted sum {10, 26, 26, 32};
`entropyBits` is `log2(alphabetSize ^ length)` when both are positive and 0
otherwise (reported rounded to one decimal, as the data model fixes one
decimal place); `score` is `min(entropyBits / 10, 10)` rounded to one
decimal and lies in [0, 10]. -/
theorem analysis_matches_spec_formulas
    (p : List Char) (hp : p ≠ []) (a : Analysis)
    (ha : analyze_password_complexity p = .ok a) :
    a.alphabet_size = spec_alphabetSize p ∧
    a.entropy = round1 (spec_entropyBits p) ∧
    a.score = spec_score p ∧ 0 ≤ a.score ∧ a.score ≤ 10 := by
  have hlen : p.length ≠ 0 := fun h => hp (List.length_eq_zero.mp h)
  rw [analyze_eq_ok p hlen] at ha
  have ha2 : analysisOf p = a := Except.ok.inj ha
  subst ha2
  exact analysisOf_fields p

/-- Witness for C4 at the concrete password `"a"`. -/
theorem analysis_matches_spec_formulas_witness :
    (analysisOf ['a']).alphabet_size = spec_alphabetSize ['a'] ∧
    (analysisOf ['a']).entropy = round1 (spec_entropyBits ['a']) ∧
    (analysisOf ['a']).score = spec_score ['a'] ∧
    0 ≤ (analysisOf ['a']).score ∧ (analysisOf ['a']).score ≤ 10 :=
  analysis_matches_spec_formulas ['a'] (by decide) (analysisOf ['a'])
    (analyze_eq_ok ['a'] (by decide))

/-! ## Facts about the synthesizer -/

theorem rchoiceN_length (seq : List Char) : ∀ (n : ℕ) (s : Rand),
    (rchoiceN seq n s).1.length = n := by
  intro n
  induction n with
  | zero => intro s; rfl
  | succ n ih => intro s; simp [rchoiceN, ih]

theorem char_sets_nonempty :
    generate_character_sets.digits ≠ [] ∧ generate_character_sets.lower ≠ [] ∧
    generate_character_sets.upper ≠ [] ∧ generate_character_sets.special ≠ [] := by
  decide

theorem digits_all_digit :
    ∀ c ∈ generate_character_sets.digits, pyIsDigit c = true := by decide

theorem lower_all_lower :
    ∀ c ∈ generate_character_sets.lower, pyIsLower c = true := by decide

theorem upper_all_upper :
    ∀ c ∈ generate_character_sets.upper, pyIsUpper c = true := by decide

theorem special_all_not_alnum :
    ∀ c ∈ generate_character_sets.special, pyIsAlnum c = false := by decide

theorem gsp_mandatory_spec (s : Rand) :
    ∃ d lo up sp, (gsp_mandatory generate_character_sets s).1 = [d, lo, up, sp] ∧
      pyIsDigit d = true ∧ pyIsLower lo = true ∧ pyIsUpper up = true ∧
      pyIsAlnum sp = false := by
  refine ⟨_, _, _, _, rfl, ?_, ?_, ?_, ?_⟩
  · exact digits_all_digit _ (rchoice_mem _ 'A' _ char_sets_nonempty.1)
  · exact lower_all_lower _ (rchoice_mem _ 'A' _ char_sets_nonempty.2.1)
  · exact upper_all_upper _ (rchoice_mem _ 'A' _ char_sets_nonempty.2.2.1)
  · exact special_all_not_alnum _ (rchoice_mem _ 'A' _ char_sets_nonempty.2.2.2)

theorem gsp_withBase_spec (base : List Char) (t : ℤ) (mand : List Char)
    (s : Rand) (hb : base ≠ []) :
    ∃ rest, (gsp_withBase base t mand s).1 = mand ++ rest ∧
      (rest.length : ℤ) =
        (if 0 < min (base.length : ℤ) (t - 4)
          then min (base.length : ℤ) (t - 4) else 0) := by
  have hbl : 1 ≤ (base.length : ℤ) := by
    have := List.length_pos.mpr hb
    exact_mod_cast this
  unfold gsp_withBase
  by_cases hm : 0 < min (base.length : ℤ) (t - 4)
  · rw [if_pos hm]
    dsimp only
    set m : ℤ := min (base.length : ℤ) (t - 4) with hmdef
    set k : ℤ := (rint 0 (max 0 ((base.length : ℤ) - m)) s).1 with hkdef
    have hmax : max 0 ((base.length : ℤ) - m) = (base.length : ℤ) - m := by
      have : m ≤ (base.length : ℤ) := min_le_left _ _
      omega
    have hk0 : 0 ≤ k := by
      rw [hkdef]
      unfold rint
      dsimp only
      have hpos : (0 : ℤ) < max 0 ((base.length : ℤ) - m) - 0 + 1 := by
        have : (0 : ℤ) ≤ max 0 ((base.length : ℤ) - m) := le_max_left _ _
        omega
      have := Int.emod_nonneg ((s 0 : ℤ)) (by omega :
        max 0 ((base.length : ℤ) - m) - 0 + 1 ≠ 0)
      omega
    have hkB : k ≤ (base.length : ℤ) - m := by
      rw [hkdef]
      unfold rint
      dsimp only
      have hpos : (0 : ℤ) < max 0 ((base.length : ℤ) - m) - 0 + 1 := by
        have : (0 : ℤ) ≤ max 0 ((base.length : ℤ) - m) := le_max_left _ _
        omega
      have := Int.emod_lt_of_pos ((s 0 : ℤ)) hpos
      rw [hmax] at this ⊢
      omega
    refine ⟨(base.drop k.toNat).take m.toNat, rfl, ?_⟩
    rw [if_pos hm]
    have hdlen : (base.drop k.toNat).length = base.length - k.toNat :=
      List.length_drop _ _
    have htake : ((base.drop k.toNat).take m.toNat).length =
        min m.toNat (base.drop k.toNat).length := List.length_take _ _
    rw [htake, hdlen]
    have hmle : m ≤ (base.length : ℤ) := min_le_left _ _
    omega
  · rw [if_neg hm]
    refine ⟨[], by rw [List.append_nil], ?_⟩
    rw [if_neg hm]
    rfl

theorem gsp_padded_spec (all : List Char) (t : ℤ) (parts : List Char)
    (s : Rand) :
    ∃ extra, (gsp_padded all t parts s).1 = parts ++ extra ∧
      (((gsp_padded all t parts s).1.length : ℤ)) =
        (if (parts.length : ℤ) < t then t else (parts.length : ℤ)) := by
  unfold gsp_padded
  by_cases hlt : (parts.length : ℤ) < t
  · rw [if_pos hlt]
    dsimp only
    refine ⟨_, rfl, ?_⟩
    rw [if_pos hlt, List.length_append, rchoiceN_length]
    omega
  · rw [if_neg hlt]
    refine ⟨[], by rw [List.append_nil], ?_⟩
    rw [if_neg hlt]

theorem gspCore_spec (h : List Char → ℤ) (ri : ℤ → Rand) (base : List Char)
    (t : ℤ) (hb : base ≠ []) (ht : 1 ≤ t) :
    ((gspCore h ri base t).length : ℤ) = t ∧
    (4 ≤ t →
      (∃ c ∈ gspCore h ri base t, pyIsDigit c = true) ∧
      (∃ c ∈ gspCore h ri base t, pyIsLower c = true) ∧
      (∃ c ∈ gspCore h ri base t, pyIsUpper c = true) ∧
      (∃ c ∈ gspCore h ri base t, pyIsAlnum c = false)) := by
  have hbl : 1 ≤ (base.length : ℤ) := by
    have := List.length_pos.mpr hb
    exact_mod_cast this
  obtain ⟨d, lo, up, sp, hm1, hd, hlo, hup, hsp⟩ :=
    gsp_mandatory_spec (ri (h base + t))
  obtain ⟨rest, hw1, hw2⟩ := gsp_withBase_spec base t
    (gsp_mandatory generate_character_sets (ri (h base + t))).1
    (gsp_mandatory generate_character_sets (ri (h base + t))).2 hb
  obtain ⟨extra, hp1, hp2⟩ := gsp_padded_spec
    (generate_character_sets.digits ++ generate_character_sets.lower ++
      generate_character_sets.upper ++ generate_character_sets.special) t
    (gsp_withBase base t
      (gsp_mandatory generate_character_sets (ri (h base + t))).1
      (gsp_mandatory generate_character_sets (ri (h base + t))).2).1
    (gsp_withBase base t
      (gsp_mandatory generate_character_sets (ri (h base + t))).1
      (gsp_mandatory generate_character_sets (ri (h base + t))).2).2
  have hw1len : ((gsp_withBase base t
      (gsp_mandatory generate_character_sets (ri (h base + t))).1
      (gsp_mandatory generate_character_sets (ri (h base + t))).2).1.length : ℤ) =
      4 + (rest.length : ℤ) := by
    rw [hw1, List.length_append, hm1]
    simp
  have hrest_le : (rest.length : ℤ) ≤ max 0 (t - 4) := by
    rw [hw2]
    split
    · exact le_max_of_le_right (min_le_right _ _)
    · exact le_max_left _ _
  set P := gsp_padded
    (generate_character_sets.digits ++ generate_character_sets.lower ++
      generate_character_sets.upper ++ generate_character_sets.special) t
    (gsp_withBase base t
      (gsp_mandatory generate_character_sets (ri (h base + t))).1
      (gsp_mandatory generate_character_sets (ri (h base + t))).2).1
    (gsp_withBase base t
      (gsp_mandatory generate_character_sets (ri (h base + t))).1
      (gsp_mandatory generate_character_sets (ri (h base + t))).2).2 with hPdef
  have hPlen1 : t ≤ (P.1.length : ℤ) := by
    rw [hp2]
    split <;> omega
  have hPlen2 : 4 ≤ t → (P.1.length : ℤ) = t := by
    intro h4
    have hr4 : (rest.length : ℤ) ≤ t - 4 := by
      have h5 := hrest_le
      rw [max_eq_right (by omega : (0:ℤ) ≤ t - 4)] at h5
      exact h5
    rw [hp2, hw1len]
    split <;> omega
  have hshufperm := rshuffle_perm P.1 P.2
  have hshuflen : (rshuffle P.1 P.2).1.length = P.1.length :=
    hshufperm.length_eq
  have hslice : pySliceTo (rshuffle P.1 P.2).1 t =
      (rshuffle P.1 P.2).1.take t.toNat := by
    unfold pySliceTo
    rw [if_pos (by omega : (0:ℤ) ≤ t)]
  have hslicelen : ((pySliceTo (rshuffle P.1 P.2).1 t).length : ℤ) = t := by
    rw [hslice]
    have h6 := List.length_take t.toNat (rshuffle P.1 P.2).1
    omega
  have hfinal : (whileTopUp
      (generate_character_sets.digits ++ generate_character_sets.lower ++
        generate_character_sets.upper ++ generate_character_sets.special) t
      (pySliceTo (rshuffle P.1 P.2).1 t) (rshuffle P.1 P.2).2) =
      (pySliceTo (rshuffle P.1 P.2).1 t, (rshuffle P.1 P.2).2) := by
    apply whileTopUp_of_not_lt
    omega
  have hcore : gspCore h ri base t = pySliceTo (rshuffle P.1 P.2).1 t := by
    unfold gspCore
    dsimp only
    rw [← hPdef, hfinal]
  constructor
  · rw [hcore]
    exact hslicelen
  · intro h4
    have hPt : (P.1.length : ℤ) = t := hPlen2 h4
    have htake : pySliceTo (rshuffle P.1 P.2).1 t = (rshuffle P.1 P.2).1 := by
      rw [hslice]
      apply List.take_of_length_le
      omega
    have hmem : ∀ c ∈ [d, lo, up, sp], c ∈ gspCore h ri base t := by
      intro c hc
      rw [hcore, htake]
      rw [hshufperm.mem_iff]
      rw [hp1, hw1, hm1]
      exact List.mem_append_left _ (List.mem_append_left _ hc)
    exact ⟨⟨d, hmem d (by simp), hd⟩, ⟨lo, hmem lo (by simp), hlo⟩,
      ⟨up, hmem up (by simp), hup⟩, ⟨sp, hmem sp (by simp), hsp⟩⟩

theorem gsp_eq_ok (h : List Char → ℤ) (ri : ℤ → Rand) (g r : Rand)
    (base : List Char) (t : ℤ) (hb : base.length ≠ 0) :
    generate_secure_password h ri g r base t = .ok (gspCore h ri base t, r) := by
  unfold generate_secure_password
  rw [if_neg hb]

/-- Evaluation rule for `round` at explicitly bracketed reals. -/
theorem round_eval (x : ℝ) (k : ℤ) (h1 : (k : ℝ) ≤ x + 1 / 2)
    (h2 : x + 1 / 2 < (k : ℝ) + 1) : round x = k := by
  rw [round_eq]
  exact Int.floor_eq_iff.mpr ⟨h1, h2⟩

/-- Claim C2: within one process run (a fixed string hash `h` and a fixed
generator-seeding map `ri`), two calls of the synthesizer with the same
seed string and target length return the same password, whatever the
generator states `g1, g2` at call time and the fresh post-call states
`r1, r2` (the call discards the prior state by reseeding). -/
theorem synthesize_deterministic_within_process
    (h : List Char → ℤ) (ri : ℤ → Rand) (g1 g2 r1 r2 : Rand)
    (base : List Char) (t : ℤ) (hb : base ≠ []) :
    (generate_secure_password h ri g1 r1 base t).map Prod.fst =
    (generate_secure_password h ri g2 r2 base t).map Prod.fst := by
  have hlen : base.length ≠ 0 := fun hh => hb (List.length_eq_zero.mp hh)
  rw [gsp_eq_ok h ri g1 r1 base t hlen, gsp_eq_ok h ri g2 r2 base t hlen]
  rfl

/-- Witness for C2 at seed `"ab"`, target length 12, and two different
ambient/reseed states. -/
theorem synthesize_deterministic_within_process_witness :
    (generate_secure_password (fun _ => 0) (fun _ _ => 0) (fun _ => 0)
      (fun _ => 1) ['a', 'b'] 12).map Prod.fst =
    (generate_secure_password (fun _ => 0) (fun _ _ => 0) (fun _ => 5)
      (fun _ => 7) ['a', 'b'] 12).map Prod.fst :=
  synthesize_deterministic_within_process (fun _ => 0) (fun _ _ => 0)
    (fun _ => 0) (fun _ => 5) (fun _ => 1) (fun _ => 7) ['a', 'b'] 12
    (by decide)

/-- Counterexample to claim C3: at seed `"a"`, target length 3 and the
all-zero generator model, the synthesizer returns exactly `"0aA"`: the
output has length 3 and consists only of alphanumeric characters, so it
contains no special character — for `targetLength < 4` the four-classes
part of the claim cannot hold (three characters cannot cover four
classes). -/
theorem synthesize_short_target_misses_class_cex :
    (generate_secure_password (fun _ => 0) (fun _ _ => 0) (fun _ => 0)
      (fun _ => 0) ['a'] 3).map Prod.fst = .ok ['0', 'a', 'A'] ∧
    (['0', 'a', 'A'] : List Char).length = 3 ∧
    (['0', 'a', 'A'] : List Char).all pyIsAlnum = true := by
  refine ⟨rfl, rfl, by decide⟩

/-- Amended claim C3: for every non-empty seed and `targetLength ≥ 1` the
synthesizer returns exactly `targetLength` characters; the output contains
at least one digit, lowercase, uppercase and special character whenever
`targetLength ≥ 4` (for `1 ≤ targetLength ≤ 3` the final truncation drops
mandatory characters and four classes cannot fit). -/
theorem synthesize_exact_length_all_classes_from_four
    (h : List Char → ℤ) (ri : ℤ → Rand) (g r : Rand) (base : List Char)
    (t : ℤ) (hb : base ≠ []) (ht : 1 ≤ t) (l : List Char) (s2 : Rand)
    (hl : generate_secure_password h ri g r base t = .ok (l, s2)) :
    (l.length : ℤ) = t ∧
    (4 ≤ t →
      (∃ c ∈ l, pyIsDigit c = true) ∧ (∃ c ∈ l, pyIsLower c = true) ∧
      (∃ c ∈ l, pyIsUpper c = true) ∧ (∃ c ∈ l, pyIsAlnum c = false)) := by
  have hlen : base.length ≠ 0 := fun hh => hb (List.length_eq_zero.mp hh)
  rw [gsp_eq_ok h ri g r base t hlen] at hl
  have hcl : gspCore h ri base t = l := congrArg Prod.fst (Except.ok.inj hl)
  subst hcl
  exact gspCore_spec h ri base t hb ht

/-- Witness for the amended C3 at seed `"ab"` and target length 14. -/
theorem synthesize_exact_length_all_classes_from_four_witness :
    (((gspCore (fun _ => 0) (fun _ _ => 0) ['a', 'b'] 14).length : ℤ) = 14) ∧
    ((4 : ℤ) ≤ 14 →
      (∃ c ∈ gspCore (fun _ => 0) (fun _ _ => 0) ['a', 'b'] 14, pyIsDigit c = true) ∧
      (∃ c ∈ gspCore (fun _ => 0) (fun _ _ => 0) ['a', 'b'] 14, pyIsLower c = true) ∧
      (∃ c ∈ gspCore (fun _ => 0) (fun _ _ => 0) ['a', 'b'] 14, pyIsUpper c = true) ∧
      (∃ c ∈ gspCore (fun _ => 0) (fun _ _ => 0) ['a', 'b'] 14, pyIsAlnum c = false)) :=
  synthesize_exact_length_all_classes_from_four (fun _ => 0) (fun _ _ => 0)
    (fun _ => 0) (fun _ => 0) ['a', 'b'] 14 (by decide) (by decide)
    (gspCore (fun _ => 0) (fun _ _ => 0) ['a', 'b'] 14) (fun _ => 0)
    (gsp_eq_ok (fun _ => 0) (fun _ _ => 0) (fun _ => 0) (fun _ => 0)
      ['a', 'b'] 14 (by decide))

/-- Counterexample to claim C7: `generate_secure_password` performs no
validation of the target length; at seed `"a"` and target length 0 it
returns `ok ""` instead of failing with `InvalidInput`. -/
theorem synthesize_accepts_nonpositive_target_cex :
    (generate_secure_password (fun _ => 0) (fun _ _ => 0) (fun _ => 0)
      (fun _ => 0) ['a'] 0).map Prod.fst = .ok [] ∧
    generate_secure_password (fun _ => 0) (fun _ _ => 0) (fun _ => 0)
      (fun _ => 0) ['a'] 0 ≠ Except.error PAError.invalidInput := by
  constructor
  · rfl
  · intro hc
    have h1 : (generate_secure_password (fun _ => 0) (fun _ _ => 0)
        (fun _ => 0) (fun _ => 0) ['a'] 0).map Prod.fst = .ok [] := rfl
    rw [hc] at h1
    simp [Except.map] at h1

/-- Amended claim C7: the synthesizer validates only the seed; for every
target length — including non-positive values — and every non-empty seed it
returns normally rather than failing with `InvalidInput`. -/
theorem synthesize_accepts_all_target_lengths
    (h : List Char → ℤ) (ri : ℤ → Rand) (g r : Rand) (base : List Char)
    (t : ℤ) (hb : base ≠ []) :
    (generate_secure_password h ri g r base t).isOk = true := by
  rw [gsp_eq_ok h ri g r base t (fun hh => hb (List.length_eq_zero.mp hh))]
  rfl

/-- Witness for the amended C7 at seed `"a"` and target length `-3`. -/
theorem synthesize_accepts_all_target_lengths_witness :
    (generate_secure_password (fun _ => 0) (fun _ _ => 0) (fun _ => 0)
      (fun _ => 0) ['a'] (-3)).isOk = true :=
  synthesize_accepts_all_target_lengths (fun _ => 0) (fun _ _ => 0)
    (fun _ => 0) (fun _ => 0) ['a'] (-3) (by decide)

/-- Claim C8: `map_entropy_to_score` fails (with the `InvalidState` error
modelling the `ValueError`) exactly when its entropy argument is negative;
otherwise it maps 0 to 0, 50 to 5.0, 150 to 10.0 (clamped), and 7.77 to
0.8. -/
theorem map_entropy_to_score_spec_values :
    (∀ e : ℝ, e < 0 ↔ map_entropy_to_score e = .error .invalidState) ∧
    map_entropy_to_score 0 = .ok 0 ∧
    map_entropy_to_score 50 = .ok 5 ∧
    map_entropy_to_score 150 = .ok 10 ∧
    map_entropy_to_score 7.77 = .ok 0.8 := by
  refine ⟨fun e => ⟨fun he => ?_, fun he => ?_⟩, ?_, ?_, ?_, ?_⟩
  · unfold map_entropy_to_score
    rw [if_pos he]
  · by_contra hn
    unfold map_entropy_to_score at he
    rw [if_neg hn] at he
    split at he <;> exact Except.noConfusion he
  · unfold map_entropy_to_score
    norm_num
  · unfold map_entropy_to_score
    rw [if_neg (by norm_num), if_neg (by norm_num)]
    rw [show min ((50 : ℝ) / 10) 10 = 5 by norm_num]
    unfold round1
    rw [round_eval (10 * 5) 50 (by norm_num) (by norm_num)]
    norm_num
  · unfold map_entropy_to_score
    rw [if_neg (by norm_num), if_neg (by norm_num)]
    rw [show min ((150 : ℝ) / 10) 10 = 10 by norm_num]
    unfold round1
    rw [round_eval (10 * 10) 100 (by norm_num) (by norm_num)]
    norm_num
  · unfold map_entropy_to_score
    rw [if_neg (by norm_num), if_neg (by norm_num)]
    rw [show min ((7.77 : ℝ) / 10) 10 = 0.777 by norm_num]
    unfold round1
    rw [round_eval (10 * 0.777) 8 (by norm_num) (by norm_num)]
    norm_num

/-- Witness for C8's failure direction at entropy `-1`. -/
theorem map_entropy_to_score_spec_values_witness :
    map_entropy_to_score (-1) = .error .invalidState :=
  (map_entropy_to_score_spec_values.1 (-1)).mp (neg_lt_zero.mpr one_pos)

/-- Counterexample to claim C6: Python's per-character classification is
Unicode-aware, not ASCII-only.  The Cyrillic lowercase letter `я` is
alphanumeric and is not an ASCII digit, lowercase or uppercase letter, yet
`check_password_characters` sets the lowercase flag for it instead of no
flag. -/
theorem classifier_cyrillic_sets_lower_cex :
    pyIsAlnum 'я' = true ∧
    ('я'.isDigit || 'я'.isLower || 'я'.isUpper) = false ∧
    check_password_characters ['я'] = ⟨false, true, false, false⟩ ∧
    check_password_characters ['я'] ≠ ⟨false, false, false, false⟩ := by
  decide

/-- Amended claim C6: classification follows Python's Unicode-aware
predicates.  Each character is classified by exactly the first applicable
branch of the precedence digit → lowercase → uppercase →
(non-alphanumeric) special — so it contributes to at most one flag — and a
character that is alphanumeric but none of digit/lowercase/uppercase under
the Unicode predicates (for example a CJK ideograph, but not a Cyrillic
letter) sets no flag. -/
theorem classifier_unicode_precedence (c : Char) :
    check_password_characters [c] =
      ⟨pyIsDigit c, !pyIsDigit c && pyIsLower c,
       !pyIsDigit c && !pyIsLower c && pyIsUpper c,
       !pyIsDigit c && !pyIsLower c && !pyIsUpper c && !pyIsAlnum c⟩ ∧
    (pyIsAlnum c = true → pyIsDigit c = false → pyIsLower c = false →
      pyIsUpper c = false →
      check_password_characters [c] = ⟨false, false, false, false⟩) := by
  constructor
  · unfold check_password_characters
    simp only [List.foldl_cons, List.foldl_nil]
    cases hd : pyIsDigit c <;> cases hl : pyIsLower c <;>
      cases hu : pyIsUpper c <;> cases ha : pyIsAlnum c <;>
        simp [hd, hl, hu, ha]
  · intro h1 h2 h3 h4
    unfold check_password_characters
    simp only [List.foldl_cons, List.foldl_nil]
    simp [h1, h2, h3, h4]

/-- Witness for the amended C6 at the CJK ideograph `中`. -/
theorem classifier_unicode_precedence_witness :
    check_password_characters ['中'] = ⟨false, false, false, false⟩ :=
  (classifier_unicode_precedence '中').2 (by decide) (by decide) (by decide)
    (by decide)

end PasswordAnalyzer

